import Mathlib

set_option autoImplicit false

/-!
Verification of the process-stats-exporter core: a shallow embedding of
`main.py` (the two stat collectors and the exporter's metric update) and
`metrics.py` (the `ProcessMetricsHandler`), together with models of the
external collaborators (process handles, metric objects) at the interface
boundary the specification gives for them.  Python dictionaries are embedded
as association lists, Python `None` as `Option.none`, and a raised
`KeyError` as `Except.error`.
-/

namespace ProcessStatsExporter

/-- Metric kinds: the `'counter'` / `'gauge'` type strings of the code. -/
inductive MetricType where
  | counter
  | gauge
  deriving DecidableEq, Repr

/-- `ProcessStat` namedtuple of `main.py`. -/
structure ProcessStat where
  metric : String
  type : MetricType
  description : String
  stat : String
  deriving DecidableEq, Repr

/-- `ProcessTasksStat` namedtuple of `main.py`. -/
structure ProcessTasksStat where
  metric : String
  type : MetricType
  description : String
  deriving DecidableEq, Repr

/-- `ProcessStatsCollector._STATS` from `main.py`. -/
def processStats : List ProcessStat :=
  [⟨"process_time_user", .counter, "Time scheduled in user mode", "stat.utime"⟩,
   ⟨"process_time_system", .counter, "Time scheduled in kernel mode", "stat.stime"⟩,
   ⟨"process_mem_rss", .gauge, "Memory resident segment size (RSS)", "stat.rss"⟩,
   ⟨"process_maj_fault", .counter,
     "Number of major faults that required a page load", "stat.majflt"⟩,
   ⟨"process_min_fault", .counter,
     "Number of minor faults the not required a page load", "stat.minflt"⟩,
   ⟨"process_ctx_involuntary", .counter,
     "Number of involuntary context switches", "sched.nr_involuntary_switches"⟩,
   ⟨"process_ctx_voluntary", .counter,
     "Number of voluntary context switches", "sched.nr_voluntary_switches"⟩,
   ⟨"process_mem_rss_max", .counter,
     "Maximum memory resident segment size (RSS)", "status.VmHWM"⟩]

/-- `ProcessTasksStatsCollector._STATS` from `main.py`. -/
def processTasksStats : List ProcessTasksStat :=
  [⟨"process_tasks_count", .gauge, "Number of process tasks"⟩,
   ⟨"process_tasks_state_running", .gauge,
     "Number of process tasks in running state"⟩,
   ⟨"process_tasks_state_sleeping", .gauge,
     "Number of process tasks in sleeping state"⟩,
   ⟨"process_tasks_state_uninterruptible_sleep", .gauge,
     "Number of process tasks in uninterruptible sleep state"⟩]

/-- Model of the external process handle (the stat-parsing collaborator,
spec section 6).  `statFields` is the read-only fact store exposed by
`get` after `collect_stats` has refreshed the handle: an unreadable or
missing field reads as `none` (this is the behaviour the repository's own
test `test_log_empty_values` relies on for a process whose stat files are
gone).  `comm` is the `comm` field (command name) and `taskStates` holds
the `stat.state` character of each task enumerated by `tasks()` after the
task's own refresh, `none` when that task's stat is unreadable. -/
structure Process where
  pid : Nat
  comm : String
  statFields : String → Option Nat
  taskStates : List (Option Char)

/-- `MetricConfig` as built by the `metrics()` classmethods of `main.py`:
name, description, type and the `labels` config entry. -/
structure MetricConfig where
  name : String
  description : String
  type : MetricType
  labels : List String
  deriving DecidableEq, Repr

/-- `ProcessStatsCollector.metrics()` from `main.py`. -/
def ProcessStatsCollector.metrics : List MetricConfig :=
  processStats.map fun stat => ⟨stat.metric, stat.description, stat.type, ["cmd"]⟩

/-- `ProcessStatsCollector.collect(process)` from `main.py`: refresh the
handle's stats, then extract each spec's source field from the fact store. -/
def ProcessStatsCollector.collect (process : Process) : List (String × Option Nat) :=
  processStats.map fun stat => (stat.metric, process.statFields stat.stat)

/-- `ProcessTasksStatsCollector.metrics()` from `main.py`. -/
def ProcessTasksStatsCollector.metrics : List MetricConfig :=
  processTasksStats.map fun stat => ⟨stat.metric, stat.description, stat.type, ["cmd"]⟩

/-- `state_counts[c]` of `ProcessTasksStatsCollector.collect`: the number of
tasks whose refreshed `stat.state` equals `c`. -/
def countTaskState (tasks : List (Option Char)) (c : Char) : Nat :=
  (tasks.filter (· == some c)).length

/-- `ProcessTasksStatsCollector.collect(process)` from `main.py`: count the
tasks and bucket them by state character. -/
def ProcessTasksStatsCollector.collect (process : Process) : List (String × Option Nat) :=
  [("process_tasks_count", some process.taskStates.length),
   ("process_tasks_state_running", some (countTaskState process.taskStates 'R')),
   ("process_tasks_state_sleeping", some (countTaskState process.taskStates 'S')),
   ("process_tasks_state_uninterruptible_sleep",
     some (countTaskState process.taskStates 'D'))]

/-- The merged `metric_values` mapping of `update_metrics`: the per-process
collector's dict updated with the per-task collector's dict.  The two key
sets are disjoint, so the dict update is a plain append. -/
def collectAll (process : Process) : List (String × Option Nat) :=
  ProcessStatsCollector.collect process ++ ProcessTasksStatsCollector.collect process

/-- Modelled from the spec: `label.py` is imported by `metrics.py` but absent
from the source tree.  Per spec section 4.1 the PID labeler declares the
label name `pid` and maps a process to its stringified identifier; the
command-line labeler, constructed from one regular expression, declares the
label name `cmd` and maps a process to its raw `comm` field (the regexp is
only a selection filter, not a projection). -/
inductive Labeler where
  | pid
  | cmdline (regexp : String)
  deriving DecidableEq, Repr

/-- `labels()` of the labeler contract (spec section 4.1). -/
def Labeler.labelNames : Labeler → List String
  | .pid => ["pid"]
  | .cmdline _ => ["cmd"]

/-- `apply(process)` of the labeler contract (spec section 4.1), the
`labeler(process)` call of `ProcessMetricsHandler._update_metric`. -/
def Labeler.apply : Labeler → Process → List (String × String)
  | .pid, process => [("pid", toString process.pid)]
  | .cmdline _, process => [("cmd", process.comm)]

/-- Python dict lookup on an association list: the first binding of the key. -/
def alookup {α β : Type} [DecidableEq α] (k : α) : List (α × β) → Option β
  | [] => none
  | (k', v) :: rest => if k' = k then some v else alookup k rest

/-- Python `dict.update`: keys of `base` keep their position with the value
from `upd` when `upd` also has the key; keys only in `upd` are appended. -/
def dictUpdate (base upd : List (String × String)) : List (String × String) :=
  (base.map fun kv =>
    match alookup kv.1 upd with
    | some v => (kv.1, v)
    | none => kv) ++ upd.filter fun kv => (alookup kv.1 base).isNone

/-- Model of a live metric object of the metric-serving collaborator (spec
section 6): its kind tag (`metric._type`) and the current value of each
labeled child, keyed by label set.  A child that was never touched has no
sample; a counter child starts at `0` when first incremented. -/
structure Metric where
  type : MetricType
  samples : List (List (String × String) × Nat)
  deriving DecidableEq, Repr

/-- Store a value for a label set, overwriting the existing sample for the
same label set and appending a new one otherwise. -/
def insertSample :
    List (List (String × String) × Nat) → List (String × String) → Nat →
      List (List (String × String) × Nat)
  | [], ls, v => [(ls, v)]
  | (l, w) :: rest, ls, v =>
      if l = ls then (ls, v) :: rest else (l, w) :: insertSample rest ls v

/-- `metric.labels(**labels).inc(value)` of the serving collaborator:
counter-increment semantics. -/
def Metric.inc (m : Metric) (ls : List (String × String)) (v : Nat) : Metric :=
  { m with samples := insertSample m.samples ls ((alookup ls m.samples).getD 0 + v) }

/-- `metric.labels(**labels).set(value)` of the serving collaborator:
gauge-overwrite semantics. -/
def Metric.set (m : Metric) (ls : List (String × String)) (v : Nat) : Metric :=
  { m with samples := insertSample m.samples ls v }

/-- The configuration state of a `ProcessMetricsHandler` from `metrics.py`:
`self._pids`, `self._cmdline_regexps` and the static extra labels
`self._labels`. -/
structure ProcessMetricsHandler where
  pids : List String
  cmdlineRegexps : List String
  labels : List (String × String)

/-- The warning line of `ProcessMetricsHandler._update_metric`:
`'empty value for metric "{}" on PID {}'.format(metric_name, process.pid)`. -/
def emptyValueMsg (metricName : String) (pid : Nat) : String :=
  "empty value for metric \"" ++ metricName ++ "\" on PID " ++ toString pid

/-- The effective label set of `ProcessMetricsHandler._update_metric`:
`labels = self._labels.copy(); labels.update(labeler(process))`. -/
def ProcessMetricsHandler.effectiveLabels (h : ProcessMetricsHandler)
    (labeler : Labeler) (process : Process) : List (String × String) :=
  dictUpdate h.labels (labeler.apply process)

/-- `ProcessMetricsHandler._update_metric` from `metrics.py`: a `None` value
is skipped with one warning line; otherwise the labeled child is updated
with counter or gauge semantics according to the metric's type tag.
Returns the new metric object and the log lines emitted. -/
def ProcessMetricsHandler.updateMetric (h : ProcessMetricsHandler)
    (labeler : Labeler) (process : Process) (metricName : String)
    (metric : Metric) (value : Option Nat) : Metric × List String :=
  match value with
  | none => (metric, [emptyValueMsg metricName process.pid])
  | some v =>
      let ls := h.effectiveLabels labeler process
      match metric.type with
      | .counter => (metric.inc ls v, [])
      | .gauge => (metric.set ls v, [])

/-- The inner loop of `ProcessMetricsHandler.update_metrics`: for each
`(name, metric)` entry of the registered-metrics dict, look the name up in
the merged `metric_values` dict — a missing name raises `KeyError`
(`Except.error`) — and apply `_update_metric`.  Returns the updated
metrics dict and the accumulated log lines. -/
def ProcessMetricsHandler.updateMetricList (h : ProcessMetricsHandler)
    (labeler : Labeler) (process : Process) :
    List (String × Metric) → List (String × Option Nat) →
      Except Unit (List (String × Metric) × List String)
  | [], _ => .ok ([], [])
  | (name, metric) :: rest, vals =>
      match alookup name vals with
      | none => .error ()
      | some v =>
          match h.updateMetricList labeler process rest vals with
          | .error e => .error e
          | .ok r =>
              .ok ((name, (h.updateMetric labeler process name metric v).1) :: r.1,
                (h.updateMetric labeler process name metric v).2 ++ r.2)

/-- `ProcessMetricsHandler.update_metrics` from `metrics.py`: for each
`(labeler, process)` pair yielded by the injected process iterator, merge
both collectors' values and update every registered metric.  The iterator's
output is the `processIter` argument. -/
def ProcessMetricsHandler.updateMetrics (h : ProcessMetricsHandler)
    (processIter : List (Labeler × Process)) (metrics : List (String × Metric)) :
    Except Unit (List (String × Metric) × List String) :=
  match processIter with
  | [] => .ok (metrics, [])
  | lp :: rest =>
      match h.updateMetricList lp.1 lp.2 metrics (collectAll lp.2) with
      | .error e => .error e
      | .ok r =>
          match h.updateMetrics rest r.1 with
          | .error e => .error e
          | .ok r' => .ok (r'.1, r.2 ++ r'.2)

/-- `ProcessMetricsHandler._get_label_names` from `metrics.py`: the static
extra-label names, plus the labels of a `CmdlineLabeler` per configured
regexp, plus the `PidLabeler` labels when PIDs are configured. -/
def ProcessMetricsHandler.getLabelNames (h : ProcessMetricsHandler) : Finset String :=
  let base := (h.labels.map Prod.fst).toFinset
  let withCmd := h.cmdlineRegexps.foldl
    (fun acc regexp => acc ∪ ((Labeler.cmdline regexp).labelNames).toFinset) base
  if h.pids.isEmpty then withCmd else withCmd ∪ (Labeler.pid.labelNames).toFinset

/-- Metric descriptor as produced through the handler: name, description,
kind, and the label-name set attached to it. -/
structure MetricDescriptor where
  name : String
  description : String
  type : MetricType
  labelNames : Finset String
  deriving DecidableEq

/-- Modelled from the spec: `stats.py` is imported by `metrics.py` but
absent from the source tree.  Per spec section 4.2 both collectors "are
parameterized at construction time with the label-name set they must
attach to every MetricDescriptor they produce"; the descriptor tables are
those of `main.py`. -/
def ProcessStatsCollector.metricsWith (labelNames : Finset String) :
    List MetricDescriptor :=
  processStats.map fun stat => ⟨stat.metric, stat.description, stat.type, labelNames⟩

/-- Modelled from the spec: the per-task collector's descriptors with the
label-name set the handler was constructed with (spec section 4.2). -/
def ProcessTasksStatsCollector.metricsWith (labelNames : Finset String) :
    List MetricDescriptor :=
  processTasksStats.map fun stat => ⟨stat.metric, stat.description, stat.type, labelNames⟩

/-- `ProcessMetricsHandler.get_metric_configs` from `metrics.py`: the
concatenation of both collectors' descriptor lists, both built with the
handler's label-name set. -/
def ProcessMetricsHandler.getMetricConfigs (h : ProcessMetricsHandler) :
    List MetricDescriptor :=
  ProcessStatsCollector.metricsWith h.getLabelNames ++
    ProcessTasksStatsCollector.metricsWith h.getLabelNames

/-- Modelled from the spec: `process.py` (`get_process_iterator`) is
imported by `metrics.py` but absent from the source tree.  Per spec
section 4.3, pattern mode: "for each configured regular expression, scan
the full current process table, filter to processes whose command line
matches, and pair each surviving process with a CommandLine labeler
constructed from that same expression".  The process table and the
regular-expression matcher are external, passed as `table` and `matches`. -/
def getProcessIterator (cmdlineRegexps : List String) (table : List Process)
    (reMatch : String → Process → Bool) : List (Labeler × Process) :=
  cmdlineRegexps.flatMap fun regexp =>
    (table.filter (reMatch regexp)).map fun p => (Labeler.cmdline regexp, p)

/-- `create_metrics` of the metric-serving collaborator (spec section 6):
one live metric object per descriptor, with no labeled child touched yet. -/
def initialMetrics (configs : List MetricDescriptor) : List (String × Metric) :=
  configs.map fun cfg => (cfg.name, ⟨cfg.type, []⟩)

/-- The metric names produced by the two collectors together, in the order
`update_metrics` merges them. -/
def collectorMetricNames : List String :=
  ProcessStatsCollector.metrics.map MetricConfig.name ++
    ProcessTasksStatsCollector.metrics.map MetricConfig.name

/-- A pattern-mode handler configured with the single regexp `exec.*` and no
static extra labels, as in the repository's `test_update_metrics`. -/
def handlerPattern : ProcessMetricsHandler := ⟨[], ["exec.*"], []⟩

/-- Concrete process handle: command `exec1`, minor-fault field `9`. -/
def procA : Process :=
  ⟨10, "exec1", fun f => if f = "stat.minflt" then some 9 else some 0, []⟩

/-- Concrete process handle: command `exec2`, minor-fault field `54`. -/
def procB : Process :=
  ⟨20, "exec2", fun f => if f = "stat.minflt" then some 54 else some 0, []⟩

/-- Concrete process handle whose tasks are in states `R, S, S, D`. -/
def procRSSD : Process :=
  ⟨30, "tasked", fun _ => some 0, [some 'R', some 'S', some 'S', some 'D']⟩

/-- Concrete process handle that exited between resolution and read: every
stat field is unreadable and no task can be enumerated. -/
def procGone : Process := ⟨40, "gone", fun _ => none, []⟩

/-- Concrete process handle with one more task, in state `Z`, than
`procRSSD`. -/
def procRSSDZ : Process :=
  ⟨31, "tasked", fun _ => some 0,
    [some 'R', some 'S', some 'S', some 'D', some 'Z']⟩

/-- A PID-mode handler configured with PID list `['10']` and no extra
labels, as in the repository's `test_update_metrics_with_pids`. -/
def handlerPid : ProcessMetricsHandler := ⟨["10"], [], []⟩

/-- A pattern-mode handler with static extra labels, one of which (`cmd`)
collides with the labeler-produced label. -/
def handlerLabeled : ProcessMetricsHandler :=
  ⟨[], ["exec.*"], [("env", "prod"), ("cmd", "static")]⟩

/-! Helper lemmas about association-list lookup and the sample store. -/

theorem alookup_append {α β : Type} [DecidableEq α] (k : α) (l₁ l₂ : List (α × β)) :
    alookup k (l₁ ++ l₂) =
      match alookup k l₁ with
      | some v => some v
      | none => alookup k l₂ := by
  induction l₁ with
  | nil => simp [alookup]
  | cons kv rest ih =>
      obtain ⟨k', v⟩ := kv
      by_cases h : k' = k <;> simp [alookup, h, ih]

theorem alookup_eq_none_of_not_mem {α β : Type} [DecidableEq α] (k : α)
    (l : List (α × β)) (h : k ∉ l.map Prod.fst) : alookup k l = none := by
  induction l with
  | nil => rfl
  | cons kv rest ih =>
      obtain ⟨k', v⟩ := kv
      simp only [List.map_cons, List.mem_cons] at h
      push_neg at h
      have hne : ¬ k' = k := fun hk => h.1 hk.symm
      simp [alookup, hne, ih h.2]

theorem alookup_isSome_of_mem {α β : Type} [DecidableEq α] (k : α)
    (l : List (α × β)) (h : k ∈ l.map Prod.fst) : (alookup k l).isSome := by
  induction l with
  | nil => simp at h
  | cons kv rest ih =>
      obtain ⟨k', v⟩ := kv
      by_cases hk : k' = k
      · simp [alookup, hk]
      · simp only [List.map_cons, List.mem_cons] at h
        rcases h with h | h
        · exact absurd h.symm hk
        · simp [alookup, hk, ih h]

theorem alookup_insertSample_self (s : List (List (String × String) × Nat))
    (ls : List (String × String)) (v : Nat) :
    alookup ls (insertSample s ls v) = some v := by
  induction s with
  | nil => simp [insertSample, alookup]
  | cons kv rest ih =>
      obtain ⟨l, w⟩ := kv
      by_cases h : l = ls <;> simp [insertSample, h, alookup, ih]

theorem alookup_insertSample_ne (s : List (List (String × String) × Nat))
    (ls ls' : List (String × String)) (v : Nat) (h : ls' ≠ ls) :
    alookup ls' (insertSample s ls v) = alookup ls' s := by
  have hne : ¬ ls = ls' := fun hk => h hk.symm
  induction s with
  | nil => simp [insertSample, alookup, hne]
  | cons kv rest ih =>
      obtain ⟨l, w⟩ := kv
      by_cases hl : l = ls
      · subst hl
        simp [insertSample, alookup, hne]
      · simp [insertSample, hl, alookup, ih]

theorem mem_keys_insertSample (s : List (List (String × String) × Nat))
    (ls x : List (String × String)) (v : Nat)
    (h : x ∈ (insertSample s ls v).map Prod.fst) :
    x = ls ∨ x ∈ s.map Prod.fst := by
  induction s with
  | nil =>
      rcases List.mem_cons.mp h with h | h
      · exact .inl h
      · exact absurd h (List.not_mem_nil x)
  | cons kv rest ih =>
      obtain ⟨l, w⟩ := kv
      have step : insertSample ((l, w) :: rest) ls v =
          if l = ls then (ls, v) :: rest else (l, w) :: insertSample rest ls v := rfl
      rw [step] at h
      by_cases hl : l = ls
      · rw [if_pos hl, List.map_cons] at h
        rcases List.mem_cons.mp h with h | h
        · exact .inl h
        · exact .inr (List.mem_cons_of_mem _ h)
      · rw [if_neg hl, List.map_cons] at h
        rcases List.mem_cons.mp h with h | h
        · subst h
          exact .inr (List.mem_cons_self _ _)
        · rcases ih h with h' | h'
          · exact .inl h'
          · exact .inr (List.mem_cons_of_mem _ h')

theorem alookup_map_updated (u b : List (String × String)) (k : String) :
    alookup k (b.map fun kv =>
      match alookup kv.1 u with
      | some v => (kv.1, v)
      | none => kv) =
      match alookup k b with
      | some bv => some ((alookup k u).getD bv)
      | none => none := by
  induction b with
  | nil => simp [alookup]
  | cons kv rest ih =>
      obtain ⟨k₀, v₀⟩ := kv
      by_cases h : k₀ = k
      · subst h
        cases hu : alookup k₀ u <;> simp [alookup, hu]
      · cases hu : alookup k₀ u <;> simp [alookup, hu, h, ih]

theorem alookup_filter_new (u b : List (String × String)) (k : String) :
    alookup k (u.filter fun kv => (alookup kv.1 b).isNone) =
      match alookup k b with
      | some _ => none
      | none => alookup k u := by
  induction u with
  | nil => cases alookup k b <;> simp [alookup]
  | cons kv rest ih =>
      obtain ⟨k₁, w₁⟩ := kv
      by_cases h : k₁ = k
      · subst h
        cases hb : alookup k₁ b <;> simp [List.filter_cons, hb, alookup, ih]
      · cases hb1 : alookup k₁ b <;>
          cases hb : alookup k b <;>
            simp [List.filter_cons, hb1, hb, alookup, h, ih]

theorem alookup_dictUpdate (b u : List (String × String)) (k : String) :
    alookup k (dictUpdate b u) =
      match alookup k u with
      | some w => some w
      | none => alookup k b := by
  unfold dictUpdate
  rw [alookup_append, alookup_map_updated, alookup_filter_new]
  cases hu : alookup k u <;> cases hb : alookup k b <;> simp [hu, hb]

theorem keys_collectAll (p : Process) :
    (collectAll p).map Prod.fst = collectorMetricNames := rfl

theorem updateMetricList_alookup (h : ProcessMetricsHandler) (lb : Labeler)
    (p : Process) (ms : List (String × Metric)) (vals : List (String × Option Nat))
    (r : List (String × Metric) × List String)
    (hok : h.updateMetricList lb p ms vals = .ok r)
    (name : String) (m₀ : Metric) (hm : alookup name ms = some m₀) :
    ∃ v, alookup name vals = some v ∧
      alookup name r.1 = some (h.updateMetric lb p name m₀ v).1 := by
  induction ms generalizing r with
  | nil => simp [alookup] at hm
  | cons nm rest ih =>
      obtain ⟨n₀, mm⟩ := nm
      cases hv : alookup n₀ vals with
      | none => simp [ProcessMetricsHandler.updateMetricList, hv] at hok
      | some v₀ =>
          cases hrec : h.updateMetricList lb p rest vals with
          | error e => simp [ProcessMetricsHandler.updateMetricList, hv, hrec] at hok
          | ok q =>
              simp only [ProcessMetricsHandler.updateMetricList, hv, hrec] at hok
              rw [Except.ok.injEq] at hok
              subst hok
              by_cases hn : n₀ = name
              · subst hn
                rw [alookup, if_pos rfl] at hm
                injection hm with hm
                subst hm
                exact ⟨v₀, hv, by rw [alookup, if_pos rfl]⟩
              · rw [alookup, if_neg hn] at hm
                obtain ⟨v, hvv, hlk⟩ := ih q hrec hm
                exact ⟨v, hvv, by rw [alookup, if_neg hn]; exact hlk⟩

theorem updateMetricList_keys (h : ProcessMetricsHandler) (lb : Labeler)
    (p : Process) (ms : List (String × Metric)) (vals : List (String × Option Nat))
    (r : List (String × Metric) × List String)
    (hok : h.updateMetricList lb p ms vals = .ok r) :
    r.1.map Prod.fst = ms.map Prod.fst := by
  induction ms generalizing r with
  | nil =>
      simp only [ProcessMetricsHandler.updateMetricList] at hok
      rw [Except.ok.injEq] at hok
      subst hok
      rfl
  | cons nm rest ih =>
      obtain ⟨n₀, mm⟩ := nm
      cases hv : alookup n₀ vals with
      | none => simp [ProcessMetricsHandler.updateMetricList, hv] at hok
      | some v₀ =>
          cases hrec : h.updateMetricList lb p rest vals with
          | error e => simp [ProcessMetricsHandler.updateMetricList, hv, hrec] at hok
          | ok q =>
              simp only [ProcessMetricsHandler.updateMetricList, hv, hrec] at hok
              rw [Except.ok.injEq] at hok
              subst hok
              simp [ih q hrec]

theorem updateMetricList_isOk (h : ProcessMetricsHandler) (lb : Labeler)
    (p : Process) (ms : List (String × Metric)) (vals : List (String × Option Nat))
    (hall : ∀ nm ∈ ms, (alookup nm.1 vals).isSome) :
    ∃ r, h.updateMetricList lb p ms vals = .ok r := by
  induction ms with
  | nil => exact ⟨([], []), rfl⟩
  | cons nm rest ih =>
      obtain ⟨n₀, mm⟩ := nm
      have h₀ := hall (n₀, mm) (List.mem_cons_self _ _)
      cases hv : alookup n₀ vals with
      | none => rw [hv] at h₀; simp at h₀
      | some v =>
          obtain ⟨q, hq⟩ := ih fun nm hm => hall nm (List.mem_cons_of_mem _ hm)
          exact ⟨((n₀, (h.updateMetric lb p n₀ mm v).1) :: q.1,
              (h.updateMetric lb p n₀ mm v).2 ++ q.2),
            by simp [ProcessMetricsHandler.updateMetricList, hv, hq]⟩

theorem updateMetricList_error (h : ProcessMetricsHandler) (lb : Labeler)
    (p : Process) (ms : List (String × Metric)) (vals : List (String × Option Nat))
    (hbad : ∃ nm ∈ ms, alookup nm.1 vals = none) :
    h.updateMetricList lb p ms vals = .error () := by
  induction ms with
  | nil => simp at hbad
  | cons nm rest ih =>
      obtain ⟨n₀, mm⟩ := nm
      obtain ⟨nm', hmem, hnone⟩ := hbad
      rcases List.mem_cons.mp hmem with hh | hh
      · subst hh
        simp [ProcessMetricsHandler.updateMetricList, hnone]
      · cases hv : alookup n₀ vals with
        | none => simp [ProcessMetricsHandler.updateMetricList, hv]
        | some v =>
            simp [ProcessMetricsHandler.updateMetricList, hv,
              ih ⟨nm', hh, hnone⟩]

theorem updateMetrics_alookup (h : ProcessMetricsHandler)
    (pairs : List (Labeler × Process)) (ms : List (String × Metric))
    (r : List (String × Metric) × List String)
    (hok : h.updateMetrics pairs ms = .ok r)
    (name : String) (m₀ : Metric) (hm : alookup name ms = some m₀) :
    alookup name r.1 = some (pairs.foldl
      (fun m lp =>
        (h.updateMetric lp.1 lp.2 name m
          ((alookup name (collectAll lp.2)).getD none)).1) m₀) := by
  induction pairs generalizing ms m₀ r with
  | nil =>
      simp only [ProcessMetricsHandler.updateMetrics] at hok
      rw [Except.ok.injEq] at hok
      subst hok
      simpa using hm
  | cons lp rest ih =>
      cases h1 : h.updateMetricList lp.1 lp.2 ms (collectAll lp.2) with
      | error e => simp [ProcessMetricsHandler.updateMetrics, h1] at hok
      | ok q =>
          cases h2 : h.updateMetrics rest q.1 with
          | error e => simp [ProcessMetricsHandler.updateMetrics, h1, h2] at hok
          | ok q' =>
              simp only [ProcessMetricsHandler.updateMetrics, h1, h2] at hok
              rw [Except.ok.injEq] at hok
              subst hok
              obtain ⟨v, hvv, hlk⟩ := updateMetricList_alookup h lp.1 lp.2 ms _ q h1 name m₀ hm
              have := ih _ _ h2 _ hlk
              rw [List.foldl_cons]
              rw [hvv]
              simpa using this

theorem updateMetrics_isOk (h : ProcessMetricsHandler)
    (pairs : List (Labeler × Process)) (ms : List (String × Metric))
    (hall : ∀ nm ∈ ms, nm.1 ∈ collectorMetricNames) :
    ∃ r, h.updateMetrics pairs ms = .ok r := by
  induction pairs generalizing ms with
  | nil => exact ⟨(ms, []), rfl⟩
  | cons lp rest ih =>
      have hvals : ∀ nm ∈ ms, (alookup nm.1 (collectAll lp.2)).isSome := by
        intro nm hm
        apply alookup_isSome_of_mem
        rw [keys_collectAll]
        exact hall nm hm
      obtain ⟨q, hq⟩ := updateMetricList_isOk h lp.1 lp.2 ms _ hvals
      have hkeys := updateMetricList_keys h lp.1 lp.2 ms _ q hq
      have hall' : ∀ nm ∈ q.1, nm.1 ∈ collectorMetricNames := by
        intro nm hm
        have : nm.1 ∈ q.1.map Prod.fst := List.mem_map_of_mem _ hm
        rw [hkeys] at this
        obtain ⟨nm', hmem', heq'⟩ := List.mem_map.mp this
        rw [← heq']
        exact hall nm' hmem'
      obtain ⟨q', hq'⟩ := ih q.1 hall'
      exact ⟨(q'.1, q.2 ++ q'.2),
        by simp [ProcessMetricsHandler.updateMetrics, hq, hq']⟩

theorem updateMetrics_error (h : ProcessMetricsHandler)
    (pairs : List (Labeler × Process)) (ms : List (String × Metric))
    (hne : pairs ≠ [])
    (hbad : ∃ nm ∈ ms, nm.1 ∉ collectorMetricNames) :
    h.updateMetrics pairs ms = .error () := by
  cases pairs with
  | nil => exact absurd rfl hne
  | cons lp rest =>
      obtain ⟨nm, hmem, hnot⟩ := hbad
      have hnone : alookup nm.1 (collectAll lp.2) = none := by
        apply alookup_eq_none_of_not_mem
        rw [keys_collectAll]
        exact hnot
      have herr := updateMetricList_error h lp.1 lp.2 ms _ ⟨nm, hmem, hnone⟩
      simp [ProcessMetricsHandler.updateMetrics, herr]

theorem samples_updateMetric (h : ProcessMetricsHandler) (lb : Labeler)
    (p : Process) (name : String) (m : Metric) (v : Option Nat) :
    ∀ s ∈ ((h.updateMetric lb p name m v).1.samples.map Prod.fst),
      s ∈ m.samples.map Prod.fst ∨ s = h.effectiveLabels lb p := by
  intro s hs
  cases v with
  | none => exact .inl hs
  | some v' =>
      cases htype : m.type with
      | counter =>
          simp only [ProcessMetricsHandler.updateMetric, htype, Metric.inc] at hs
          rcases mem_keys_insertSample _ _ _ _ hs with h' | h'
          · exact .inr h'
          · exact .inl h'
      | gauge =>
          simp only [ProcessMetricsHandler.updateMetric, htype, Metric.set] at hs
          rcases mem_keys_insertSample _ _ _ _ hs with h' | h'
          · exact .inr h'
          · exact .inl h'

theorem samples_updateMetricList (h : ProcessMetricsHandler) (lb : Labeler)
    (p : Process) (ms : List (String × Metric)) (vals : List (String × Option Nat))
    (r : List (String × Metric) × List String)
    (hok : h.updateMetricList lb p ms vals = .ok r) :
    ∀ nm ∈ r.1, ∃ m₀, (nm.1, m₀) ∈ ms ∧
      ∀ s ∈ nm.2.samples.map Prod.fst,
        s ∈ m₀.samples.map Prod.fst ∨ s = h.effectiveLabels lb p := by
  induction ms generalizing r with
  | nil =>
      simp only [ProcessMetricsHandler.updateMetricList] at hok
      rw [Except.ok.injEq] at hok
      subst hok
      intro nm hmem
      simp at hmem
  | cons nm₀ rest ih =>
      obtain ⟨n₀, mm⟩ := nm₀
      cases hv : alookup n₀ vals with
      | none => simp [ProcessMetricsHandler.updateMetricList, hv] at hok
      | some v₀ =>
          cases hrec : h.updateMetricList lb p rest vals with
          | error e => simp [ProcessMetricsHandler.updateMetricList, hv, hrec] at hok
          | ok q =>
              simp only [ProcessMetricsHandler.updateMetricList, hv, hrec] at hok
              rw [Except.ok.injEq] at hok
              subst hok
              intro nm hmem
              rcases List.mem_cons.mp hmem with hh | hh
              · subst hh
                exact ⟨mm, List.mem_cons_self _ _, samples_updateMetric h lb p n₀ mm v₀⟩
              · obtain ⟨m₀, hm₀, hsub⟩ := ih q hrec nm hh
                exact ⟨m₀, List.mem_cons_of_mem _ hm₀, hsub⟩

theorem samples_updateMetrics (h : ProcessMetricsHandler)
    (pairs : List (Labeler × Process)) (ms : List (String × Metric))
    (r : List (String × Metric) × List String)
    (hok : h.updateMetrics pairs ms = .ok r) :
    ∀ nm ∈ r.1, ∃ m₀, (nm.1, m₀) ∈ ms ∧
      ∀ s ∈ nm.2.samples.map Prod.fst,
        s ∈ m₀.samples.map Prod.fst ∨
          ∃ lp ∈ pairs, s = h.effectiveLabels lp.1 lp.2 := by
  induction pairs generalizing ms r with
  | nil =>
      simp only [ProcessMetricsHandler.updateMetrics] at hok
      rw [Except.ok.injEq] at hok
      subst hok
      intro nm hmem
      exact ⟨nm.2, hmem, fun s hs => .inl hs⟩
  | cons lp rest ih =>
      cases h1 : h.updateMetricList lp.1 lp.2 ms (collectAll lp.2) with
      | error e => simp [ProcessMetricsHandler.updateMetrics, h1] at hok
      | ok q =>
          cases h2 : h.updateMetrics rest q.1 with
          | error e => simp [ProcessMetricsHandler.updateMetrics, h1, h2] at hok
          | ok q' =>
              simp only [ProcessMetricsHandler.updateMetrics, h1, h2] at hok
              rw [Except.ok.injEq] at hok
              subst hok
              intro nm hmem
              obtain ⟨m₁, hm₁, hsub₁⟩ := ih q.1 q' h2 nm hmem
              obtain ⟨m₀, hm₀, hsub₀⟩ :=
                samples_updateMetricList h lp.1 lp.2 ms _ q h1 (nm.1, m₁) hm₁
              refine ⟨m₀, hm₀, fun s hs => ?_⟩
              rcases hsub₁ s hs with hcase | hcase
              · rcases hsub₀ s hcase with hcase' | hcase'
                · exact .inl hcase'
                · exact .inr ⟨lp, List.mem_cons_self _ _, hcase'⟩
              · obtain ⟨lp', hlp', heq'⟩ := hcase
                exact .inr ⟨lp', List.mem_cons_of_mem _ hlp', heq'⟩

/-! The claims. -/

/-- C2: for both collector variants and every process handle, the metric
names declared by `metrics()` coincide, in order (hence as sets), with the
keys of the mapping returned by `collect(process)`; a value may be absent
but its key is always present. -/
theorem claim_c2_metrics_collect_correspondence (p : Process) :
    ProcessStatsCollector.metrics.map MetricConfig.name =
        (ProcessStatsCollector.collect p).map Prod.fst ∧
      ProcessTasksStatsCollector.metrics.map MetricConfig.name =
        (ProcessTasksStatsCollector.collect p).map Prod.fst :=
  ⟨rfl, rfl⟩

/-- C3: a process whose tasks are in states `R, S, S, D` collects to
total 4, running 1, sleeping 2, uninterruptible 1; and a task in any state
outside `R`, `S`, `D` contributes to `process_tasks_count` but to none of
the three named state buckets. -/
theorem claim_c3_task_state_aggregation :
    (∀ p : Process, p.taskStates = [some 'R', some 'S', some 'S', some 'D'] →
      ProcessTasksStatsCollector.collect p =
        [("process_tasks_count", some 4),
         ("process_tasks_state_running", some 1),
         ("process_tasks_state_sleeping", some 2),
         ("process_tasks_state_uninterruptible_sleep", some 1)]) ∧
    (∀ (p q : Process) (c : Option Char),
      c ≠ some 'R' → c ≠ some 'S' → c ≠ some 'D' →
      q.taskStates = p.taskStates ++ [c] →
      alookup "process_tasks_count" (ProcessTasksStatsCollector.collect q) =
          some (some (p.taskStates.length + 1)) ∧
        alookup "process_tasks_state_running"
            (ProcessTasksStatsCollector.collect q) =
          alookup "process_tasks_state_running"
            (ProcessTasksStatsCollector.collect p) ∧
        alookup "process_tasks_state_sleeping"
            (ProcessTasksStatsCollector.collect q) =
          alookup "process_tasks_state_sleeping"
            (ProcessTasksStatsCollector.collect p) ∧
        alookup "process_tasks_state_uninterruptible_sleep"
            (ProcessTasksStatsCollector.collect q) =
          alookup "process_tasks_state_uninterruptible_sleep"
            (ProcessTasksStatsCollector.collect p)) := by
  constructor
  · intro p hp
    simp [ProcessTasksStatsCollector.collect, hp, countTaskState]
  · intro p q c hR hS hD hq
    have hcount : ∀ ch : Char, c ≠ some ch →
        countTaskState (p.taskStates ++ [c]) ch =
          countTaskState p.taskStates ch := by
      intro ch hne
      have hbeq : (c == some ch) = false := beq_eq_false_iff_ne.mpr hne
      simp [countTaskState, List.filter_append, List.filter_cons, hbeq]
    refine ⟨?_, ?_, ?_, ?_⟩ <;>
      simp [ProcessTasksStatsCollector.collect, hq, alookup,
        hcount 'R' hR, hcount 'S' hS, hcount 'D' hD]

/-- C3 witness: the concrete processes `procRSSD` and `procRSSDZ`. -/
theorem claim_c3_task_state_aggregation_witness :
    ProcessTasksStatsCollector.collect procRSSD =
        [("process_tasks_count", some 4),
         ("process_tasks_state_running", some 1),
         ("process_tasks_state_sleeping", some 2),
         ("process_tasks_state_uninterruptible_sleep", some 1)] ∧
      alookup "process_tasks_count"
          (ProcessTasksStatsCollector.collect procRSSDZ) = some (some 5) :=
  ⟨claim_c3_task_state_aggregation.1 procRSSD rfl,
   (claim_c3_task_state_aggregation.2 procRSSD procRSSDZ (some 'Z')
      (by decide) (by decide) (by decide) rfl).1⟩

/-- C4 counterexample: `procGone` is a process whose stat refresh failed —
every field unreadable, no task enumerable — yet the per-task collector
binds its metric names to concrete zero counts, not to Absent, so it is
false that each collector binds every one of its metric names to Absent. -/
theorem claim_c4_counterexample :
    (∀ f, procGone.statFields f = none) ∧ procGone.taskStates = [] ∧
      ¬ (∀ kv ∈ ProcessStatsCollector.collect procGone ++
            ProcessTasksStatsCollector.collect procGone, kv.2 = none) := by
  refine ⟨fun _ => rfl, rfl, fun hall => ?_⟩
  have := hall ("process_tasks_count", some 0) (by decide)
  simp at this

/-- C4 amended: for a process whose stat refresh fails, the per-process
collector binds every one of its eight metric names to Absent (and, being
total, raises nothing), while the per-task collector never produces Absent:
it binds its four metric names to the concrete count zero. -/
theorem claim_c4_per_process_absent_task_zero (p : Process)
    (hf : ∀ f, p.statFields f = none) (ht : p.taskStates = []) :
    (∀ kv ∈ ProcessStatsCollector.collect p, kv.2 = none) ∧
      ProcessTasksStatsCollector.collect p =
        [("process_tasks_count", some 0),
         ("process_tasks_state_running", some 0),
         ("process_tasks_state_sleeping", some 0),
         ("process_tasks_state_uninterruptible_sleep", some 0)] := by
  constructor
  · intro kv hkv
    obtain ⟨stat, _, hkv⟩ := List.mem_map.mp hkv
    rw [← hkv]
    exact hf stat.stat
  · simp [ProcessTasksStatsCollector.collect, ht, countTaskState]

/-- C4 witness: the amended statement at the concrete process `procGone`. -/
theorem claim_c4_per_process_absent_task_zero_witness :
    ProcessTasksStatsCollector.collect procGone =
      [("process_tasks_count", some 0),
       ("process_tasks_state_running", some 0),
       ("process_tasks_state_sleeping", some 0),
       ("process_tasks_state_uninterruptible_sleep", some 0)] :=
  (claim_c4_per_process_absent_task_zero procGone (fun _ => rfl) rfl).2

/-- C5: an Absent value reaching `_update_metric` leaves the metric object
unchanged and produces exactly one warning line, which contains both the
metric name and the process identifier; the surrounding loop keeps
processing the remaining metrics instead of aborting. -/
theorem claim_c5_absent_skips_and_warns (h : ProcessMetricsHandler)
    (lb : Labeler) (p : Process) (name : String) (m : Metric)
    (rest : List (String × Metric)) (vals : List (String × Option Nat))
    (hv : alookup name vals = some none) :
    h.updateMetric lb p name m none = (m, [emptyValueMsg name p.pid]) ∧
      (∃ pre mid, emptyValueMsg name p.pid = pre ++ name ++ mid ++ toString p.pid) ∧
      h.updateMetricList lb p ((name, m) :: rest) vals =
        (h.updateMetricList lb p rest vals).map
          fun q => ((name, m) :: q.1, emptyValueMsg name p.pid :: q.2) := by
  refine ⟨rfl, ⟨"empty value for metric \"", "\" on PID ", rfl⟩, ?_⟩
  cases hrec : h.updateMetricList lb p rest vals with
  | error e =>
      simp [ProcessMetricsHandler.updateMetricList, hv, hrec, Except.map]
  | ok q =>
      simp [ProcessMetricsHandler.updateMetricList, hv, hrec, Except.map,
        ProcessMetricsHandler.updateMetric]

/-- C5 witness: a concrete Absent value for `process_time_user`. -/
theorem claim_c5_absent_skips_and_warns_witness :
    handlerPattern.updateMetric Labeler.pid procGone "process_time_user"
        ⟨MetricType.counter, []⟩ none =
      (⟨MetricType.counter, []⟩, [emptyValueMsg "process_time_user" 40]) :=
  (claim_c5_absent_skips_and_warns handlerPattern Labeler.pid procGone
    "process_time_user" ⟨MetricType.counter, []⟩ []
    [("process_time_user", none)] (by decide)).1

theorem foldl_union_cmd (rs : List String) (acc : Finset String) (hne : rs ≠ []) :
    rs.foldl (fun a regexp => a ∪ ((Labeler.cmdline regexp).labelNames).toFinset) acc =
      acc ∪ {"cmd"} := by
  induction rs generalizing acc with
  | nil => exact absurd rfl hne
  | cons r rs' ih =>
      rw [List.foldl_cons]
      have hc : ((Labeler.cmdline r).labelNames).toFinset = ({"cmd"} : Finset String) := by
        show (["cmd"] : List String).toFinset = {"cmd"}
        decide
      by_cases h' : rs' = []
      · subst h'
        rw [List.foldl_nil, hc]
      · rw [ih _ h', hc, Finset.union_assoc, Finset.union_self]

theorem getLabelNames_eq (h : ProcessMetricsHandler) :
    h.getLabelNames =
      ((if h.cmdlineRegexps = [] then (h.labels.map Prod.fst).toFinset
        else (h.labels.map Prod.fst).toFinset ∪ {"cmd"}) ∪
        if h.pids = [] then ∅ else {"pid"}) := by
  have hpid : (Labeler.pid.labelNames).toFinset = ({"pid"} : Finset String) := by
    decide
  by_cases hr : h.cmdlineRegexps = [] <;> by_cases hp : h.pids = []
  · simp [ProcessMetricsHandler.getLabelNames, hr, hp]
  · obtain ⟨a, as, ha⟩ := List.exists_cons_of_ne_nil hp
    simp [ProcessMetricsHandler.getLabelNames, hr, hp, ha, hpid]
  · simp [ProcessMetricsHandler.getLabelNames, hr, hp, foldl_union_cmd _ _ hr]
  · obtain ⟨a, as, ha⟩ := List.exists_cons_of_ne_nil hp
    simp [ProcessMetricsHandler.getLabelNames, hr, hp, ha, hpid,
      foldl_union_cmd _ _ hr]

/-- C6: every descriptor from `get_metric_configs()` carries the handler's
label-name set; in PID mode (no patterns, no extra labels) that set is
exactly `pid`; in pattern mode (no PIDs) it is exactly `cmd` plus the
static extra-label names; and as long as the static extra labels do not
themselves introduce `pid` or `cmd`, no descriptor of a single-mode
handler ever declares both `pid` and `cmd`. -/
theorem claim_c6_label_names_by_mode (h : ProcessMetricsHandler) :
    (∀ cfg ∈ h.getMetricConfigs, cfg.labelNames = h.getLabelNames) ∧
      (h.pids ≠ [] → h.cmdlineRegexps = [] → h.labels = [] →
        h.getLabelNames = {"pid"}) ∧
      (h.cmdlineRegexps ≠ [] → h.pids = [] →
        h.getLabelNames = insert "cmd" (h.labels.map Prod.fst).toFinset) ∧
      ("pid" ∉ h.labels.map Prod.fst → "cmd" ∉ h.labels.map Prod.fst →
        h.pids = [] ∨ h.cmdlineRegexps = [] →
        ¬ ("pid" ∈ h.getLabelNames ∧ "cmd" ∈ h.getLabelNames)) := by
  refine ⟨?_, ?_, ?_, ?_⟩
  · intro cfg hcfg
    rcases List.mem_append.mp hcfg with hcfg | hcfg <;>
      · obtain ⟨stat, _, hcfg⟩ := List.mem_map.mp hcfg
        rw [← hcfg]
  · intro hp hr hl
    rw [getLabelNames_eq, hr, hl]
    simp [hp]
  · intro hr hp
    rw [getLabelNames_eq, if_neg hr, if_pos hp, Finset.union_empty,
      Finset.union_comm, ← Finset.insert_eq]
  · intro hnp hnc hmode ⟨hpidmem, hcmdmem⟩
    rw [getLabelNames_eq] at hpidmem hcmdmem
    by_cases hr : h.cmdlineRegexps = [] <;> by_cases hp : h.pids = []
    · rw [if_pos hr, if_pos hp, Finset.union_empty] at hpidmem
      exact hnp (List.mem_toFinset.mp hpidmem)
    · rw [if_pos hr, if_neg hp] at hcmdmem
      rcases Finset.mem_union.mp hcmdmem with hc | hc
      · exact hnc (List.mem_toFinset.mp hc)
      · exact absurd (Finset.mem_singleton.mp hc) (by decide)
    · rw [if_neg hr, if_pos hp, Finset.union_empty] at hpidmem
      rcases Finset.mem_union.mp hpidmem with hc | hc
      · exact hnp (List.mem_toFinset.mp hc)
      · exact absurd (Finset.mem_singleton.mp hc) (by decide)
    · rcases hmode with hmode | hmode
      · exact hp hmode
      · exact hr hmode

/-- C6 witness: the PID-mode handler `handlerPid` and the pattern-mode
handler `handlerPattern`. -/
theorem claim_c6_label_names_by_mode_witness :
    handlerPid.getLabelNames = {"pid"} ∧
      handlerPattern.getLabelNames =
        insert "cmd" ((handlerPattern.labels.map Prod.fst).toFinset) :=
  ⟨(claim_c6_label_names_by_mode handlerPid).2.1 (List.cons_ne_nil _ _) rfl rfl,
   (claim_c6_label_names_by_mode handlerPattern).2.2.1 (List.cons_ne_nil _ _) rfl⟩

/-- C8: for a present value, the effective label set is the static extra
labels merged with the labeler's output, the labeler winning every key
collision; a counter-kind metric is incremented by the collected value and
a gauge-kind metric is overwritten with it. -/
theorem claim_c8_present_value_semantics (h : ProcessMetricsHandler)
    (lb : Labeler) (p : Process) (name : String) (m : Metric) (v : Nat) :
    (∀ k w, alookup k (lb.apply p) = some w →
      alookup k (h.effectiveLabels lb p) = some w) ∧
      (∀ k, alookup k (lb.apply p) = none →
        alookup k (h.effectiveLabels lb p) = alookup k h.labels) ∧
      (m.type = .counter →
        (h.updateMetric lb p name m (some v)).1 =
            m.inc (h.effectiveLabels lb p) v ∧
          alookup (h.effectiveLabels lb p)
              (h.updateMetric lb p name m (some v)).1.samples =
            some ((alookup (h.effectiveLabels lb p) m.samples).getD 0 + v)) ∧
      (m.type = .gauge →
        (h.updateMetric lb p name m (some v)).1 =
            m.set (h.effectiveLabels lb p) v ∧
          alookup (h.effectiveLabels lb p)
              (h.updateMetric lb p name m (some v)).1.samples =
            some v) := by
  refine ⟨?_, ?_, ?_, ?_⟩
  · intro k w hk
    rw [ProcessMetricsHandler.effectiveLabels, alookup_dictUpdate, hk]
  · intro k hk
    rw [ProcessMetricsHandler.effectiveLabels, alookup_dictUpdate, hk]
  · intro htype
    constructor
    · simp [ProcessMetricsHandler.updateMetric, htype]
    · simp [ProcessMetricsHandler.updateMetric, htype, Metric.inc,
        alookup_insertSample_self]
  · intro htype
    constructor
    · simp [ProcessMetricsHandler.updateMetric, htype]
    · simp [ProcessMetricsHandler.updateMetric, htype, Metric.set,
        alookup_insertSample_self]

/-- C8 witness: the labeler-produced `cmd` label wins over the static
extra label `cmd` of `handlerLabeled`, and a counter update increments. -/
theorem claim_c8_present_value_semantics_witness :
    alookup "cmd"
        (handlerLabeled.effectiveLabels (Labeler.cmdline "exec.*") procA) =
      some "exec1" :=
  (claim_c8_present_value_semantics handlerLabeled (Labeler.cmdline "exec.*")
    procA "process_min_fault" ⟨MetricType.counter, []⟩ 9).1 "cmd" "exec1"
    (by decide)

/-- C7: in a PID-mode update cycle — every yielded pair carries the PID
labeler — every sample produced from initially untouched metric objects
carries a `pid` label whose value is the stringified identifier of one of
the yielded processes (in particular it is never the command name). -/
theorem claim_c7_pid_mode_sample_labels (h : ProcessMetricsHandler)
    (pairs : List (Labeler × Process)) (ms : List (String × Metric))
    (r : List (String × Metric) × List String)
    (hpid : ∀ lp ∈ pairs, lp.1 = Labeler.pid)
    (hinit : ∀ nm ∈ ms, nm.2.samples = [])
    (hok : h.updateMetrics pairs ms = .ok r) :
    ∀ nm ∈ r.1, ∀ s ∈ nm.2.samples,
      ∃ q : Process, (Labeler.pid, q) ∈ pairs ∧
        alookup "pid" s.1 = some (toString q.pid) := by
  intro nm hmem s hs
  obtain ⟨m₀, hm₀, hsub⟩ := samples_updateMetrics h pairs ms r hok nm hmem
  have hkey : s.1 ∈ nm.2.samples.map Prod.fst := List.mem_map_of_mem _ hs
  rcases hsub s.1 hkey with hcase | hcase
  · have : m₀.samples = [] := hinit (nm.1, m₀) hm₀
    rw [this] at hcase
    simp at hcase
  · obtain ⟨lp, hlp, heq⟩ := hcase
    have hlb := hpid lp hlp
    refine ⟨lp.2, ?_, ?_⟩
    · rw [← hlb]
      exact hlp
    · rw [heq, hlb, ProcessMetricsHandler.effectiveLabels, alookup_dictUpdate]
      simp [Labeler.apply, alookup]

/-- C7 witness: one PID-mode pair over a single counter metric. -/
theorem claim_c7_pid_mode_sample_labels_witness :
    ∃ q : Process, (Labeler.pid, q) ∈ [(Labeler.pid, procA)] ∧
      alookup "pid" [("pid", "10")] = some (toString q.pid) :=
  claim_c7_pid_mode_sample_labels handlerPid [(Labeler.pid, procA)]
    [("process_time_user", ⟨MetricType.counter, []⟩)]
    ([("process_time_user", ⟨MetricType.counter, [([("pid", "10")], 0)]⟩)], [])
    (by decide) (by decide) rfl
    ("process_time_user", ⟨MetricType.counter, [([("pid", "10")], 0)]⟩)
    (by decide) ([("pid", "10")], 0) (by decide)

/-- C10: when the resolver yields at least one pair, a registered metric
whose name is not among the names the two collectors produce makes
`update_metrics` raise a key-lookup error rather than skip it; the
Absent-skip path applies only to collector-produced names, for which the
cycle always completes. -/
theorem claim_c10_unknown_name_raises (h : ProcessMetricsHandler)
    (pairs : List (Labeler × Process)) (ms : List (String × Metric))
    (hne : pairs ≠ []) :
    ((∃ nm ∈ ms, nm.1 ∉ collectorMetricNames) →
      h.updateMetrics pairs ms = .error ()) ∧
      ((∀ nm ∈ ms, nm.1 ∈ collectorMetricNames) →
        ∃ r, h.updateMetrics pairs ms = .ok r) :=
  ⟨fun hbad => updateMetrics_error h pairs ms hne hbad,
   fun hall => updateMetrics_isOk h pairs ms hall⟩

/-- C10 witness: a registered metric named `bogus` makes the cycle raise. -/
theorem claim_c10_unknown_name_raises_witness :
    handlerPattern.updateMetrics [(Labeler.pid, procGone)]
        [("bogus", ⟨MetricType.counter, []⟩)] = .error () :=
  (claim_c10_unknown_name_raises handlerPattern [(Labeler.pid, procGone)]
      [("bogus", ⟨MetricType.counter, []⟩)] (List.cons_ne_nil _ _)).1
    ⟨("bogus", ⟨MetricType.counter, []⟩), by decide, by decide⟩

theorem filter_eq_single {α : Type} (l : List α) (f : α → Bool) (a : α)
    (h1 : l.countP f = 1) (h2 : ∀ x ∈ l, f x → x = a) : l.filter f = [a] := by
  induction l with
  | nil => simp [List.countP_nil] at h1
  | cons x xs ih =>
      rw [List.countP_cons] at h1
      by_cases hx : f x
      · rw [if_pos hx] at h1
        have hx0 : xs.countP f = 0 := by omega
        have hxa : x = a := h2 x (List.mem_cons_self _ _) hx
        rw [List.filter_cons, if_pos hx, hxa]
        have : xs.filter f = [] := by
          rw [List.filter_eq_nil_iff]
          intro b hb hfb
          have := List.countP_pos_iff.mpr ⟨b, hb, hfb⟩
          omega
        rw [this]
      · rw [List.filter_cons, if_neg hx]
        have hx0 : (if f x then 1 else 0) = 0 := by simp [hx]
        rw [hx0] at h1
        exact ih (by omega) fun b hb hfb => h2 b (List.mem_cons_of_mem _ hb) hfb

theorem filter_map_block {α β : Type} (l : List α) (f : α → β) (pr : β → Bool) :
    (l.map f).filter pr = (l.filter fun a => pr (f a)).map f := by
  induction l with
  | nil => rfl
  | cons a l ih =>
      rw [List.map_cons, List.filter_cons, List.filter_cons]
      by_cases h : pr (f a) <;> simp [h, ih]

/-- C9: in pattern mode, the resolver yields one `(labeler, process)` pair
per (expression, matching process) combination: for a process present once
in the table, the sub-sequence of pairs carrying that process is exactly
the sequence of configured expressions matching it, each paired under the
command-line labeler built from that same expression — so a process
matching N distinct expressions appears in exactly N pairs, one per
expression, with no deduplication and no merging under another
expression's labeler. -/
theorem claim_c9_pattern_mode_multi_match (rs : List String)
    (table : List Process) (reMatch : String → Process → Bool) (p : Process)
    (h1 : table.countP (fun q => q.pid == p.pid) = 1)
    (h2 : ∀ q ∈ table, q.pid = p.pid → q = p) :
    ((getProcessIterator rs table reMatch).filter
        (fun lp => lp.2.pid == p.pid) =
      (rs.filter fun regexp => reMatch regexp p).map
        fun regexp => (Labeler.cmdline regexp, p)) ∧
      ((getProcessIterator rs table reMatch).countP
          (fun lp => lp.2.pid == p.pid) =
        rs.countP fun regexp => reMatch regexp p) := by
  have hfil : table.filter (fun q => q.pid == p.pid) = [p] :=
    filter_eq_single table _ p h1 fun x hx hfx =>
      h2 x hx (by simpa using hfx)
  have hblock : ∀ regexp,
      ((table.filter (reMatch regexp)).map
          (fun q => (Labeler.cmdline regexp, q))).filter
        (fun lp => lp.2.pid == p.pid) =
      if reMatch regexp p then [(Labeler.cmdline regexp, p)] else [] := by
    intro regexp
    have hcomm : (table.filter (reMatch regexp)).filter
          (fun q => q.pid == p.pid) =
        (table.filter (fun q => q.pid == p.pid)).filter (reMatch regexp) := by
      rw [List.filter_filter, List.filter_filter]
      congr 1
      funext q
      exact Bool.and_comm _ _
    rw [filter_map_block]
    show ((table.filter (reMatch regexp)).filter fun q => q.pid == p.pid).map
        (fun q => (Labeler.cmdline regexp, q)) =
      if reMatch regexp p then [(Labeler.cmdline regexp, p)] else []
    rw [hcomm, hfil, List.filter_cons]
    by_cases hm : reMatch regexp p <;> simp [hm]
  have hmain : (getProcessIterator rs table reMatch).filter
      (fun lp => lp.2.pid == p.pid) =
      (rs.filter fun regexp => reMatch regexp p).map
        fun regexp => (Labeler.cmdline regexp, p) := by
    induction rs with
    | nil => rfl
    | cons r rs' ih =>
        have hsplit : getProcessIterator (r :: rs') table reMatch =
            ((table.filter (reMatch r)).map fun q => (Labeler.cmdline r, q)) ++
              getProcessIterator rs' table reMatch := rfl
        rw [hsplit, List.filter_append, hblock r, ih, List.filter_cons]
        by_cases hm : reMatch r p <;> simp [hm]
  refine ⟨hmain, ?_⟩
  rw [List.countP_eq_length_filter, List.countP_eq_length_filter, hmain,
    List.length_map]

/-- C9 witness: a table with one process and two expressions both matching;
the process appears once under each expression's own labeler. -/
theorem claim_c9_pattern_mode_multi_match_witness :
    (getProcessIterator ["a", "b"] [procA] fun _ _ => true).filter
        (fun lp => lp.2.pid == procA.pid) =
      ((["a", "b"] : List String).filter fun _ => true).map
        fun regexp => (Labeler.cmdline regexp, procA) :=
  (claim_c9_pattern_mode_multi_match ["a", "b"] [procA] (fun _ _ => true)
      procA (by decide) fun q hq _ => List.mem_singleton.mp hq).1

/-- C1: one configured pattern, two matching processes with command lines
`exec1` and `exec2` and minor-fault fields `9` and `54`: after one
`update_metrics` cycle on freshly created metric objects, the
`process_min_fault` counter holds `9` under `cmd=exec1` and `54` under
`cmd=exec2` — each process's value under its own label, never swapped or
merged. -/
theorem claim_c1_min_fault_own_labels (A B : Process)
    (hA : A.comm = "exec1") (hB : B.comm = "exec2")
    (hmA : A.statFields "stat.minflt" = some 9)
    (hmB : B.statFields "stat.minflt" = some 54)
    (r : List (String × Metric) × List String)
    (hok : handlerPattern.updateMetrics
        [(Labeler.cmdline "exec.*", A), (Labeler.cmdline "exec.*", B)]
        (initialMetrics handlerPattern.getMetricConfigs) = .ok r) :
    ∃ m : Metric, alookup "process_min_fault" r.1 = some m ∧
      m.type = .counter ∧
      alookup [("cmd", "exec1")] m.samples = some 9 ∧
      alookup [("cmd", "exec2")] m.samples = some 54 := by
  have hm0 : alookup "process_min_fault"
      (initialMetrics handlerPattern.getMetricConfigs) =
        some ⟨.counter, []⟩ := by decide
  have hfold := updateMetrics_alookup handlerPattern _ _ r hok
    "process_min_fault" ⟨.counter, []⟩ hm0
  rw [List.foldl_cons, List.foldl_cons, List.foldl_nil] at hfold
  have hvA : alookup "process_min_fault" (collectAll A) = some (some 9) := by
    simp [collectAll, ProcessStatsCollector.collect,
      ProcessTasksStatsCollector.collect, processStats, alookup, hmA]
  have hvB : alookup "process_min_fault" (collectAll B) = some (some 54) := by
    simp [collectAll, ProcessStatsCollector.collect,
      ProcessTasksStatsCollector.collect, processStats, alookup, hmB]
  rw [hvA, hvB] at hfold
  have heffA : handlerPattern.effectiveLabels (Labeler.cmdline "exec.*") A =
      [("cmd", "exec1")] := by
    simp [ProcessMetricsHandler.effectiveLabels, dictUpdate, handlerPattern,
      Labeler.apply, alookup, hA]
  have heffB : handlerPattern.effectiveLabels (Labeler.cmdline "exec.*") B =
      [("cmd", "exec2")] := by
    simp [ProcessMetricsHandler.effectiveLabels, dictUpdate, handlerPattern,
      Labeler.apply, alookup, hB]
  have hstep1 : (handlerPattern.updateMetric (Labeler.cmdline "exec.*") A
      "process_min_fault" ⟨.counter, []⟩ ((some (some 9)).getD none)).1 =
        ⟨.counter, [([("cmd", "exec1")], 9)]⟩ := by
    simp only [Option.getD_some, ProcessMetricsHandler.updateMetric, heffA]
    decide
  have hstep2 : (handlerPattern.updateMetric (Labeler.cmdline "exec.*") B
      "process_min_fault" ⟨.counter, [([("cmd", "exec1")], 9)]⟩
        ((some (some 54)).getD none)).1 =
        ⟨.counter, [([("cmd", "exec1")], 9), ([("cmd", "exec2")], 54)]⟩ := by
    simp only [Option.getD_some, ProcessMetricsHandler.updateMetric, heffB]
    decide
  rw [hstep1, hstep2] at hfold
  exact ⟨_, hfold, rfl, by decide, by decide⟩

/-- C1 witness: the concrete processes `procA` and `procB`. -/
theorem claim_c1_min_fault_own_labels_witness :
    ∃ r, handlerPattern.updateMetrics
        [(Labeler.cmdline "exec.*", procA), (Labeler.cmdline "exec.*", procB)]
        (initialMetrics handlerPattern.getMetricConfigs) = .ok r ∧
      ∃ m : Metric, alookup "process_min_fault" r.1 = some m ∧
        m.type = .counter ∧
        alookup [("cmd", "exec1")] m.samples = some 9 ∧
        alookup [("cmd", "exec2")] m.samples = some 54 := by
  obtain ⟨r, hok⟩ := updateMetrics_isOk handlerPattern
    [(Labeler.cmdline "exec.*", procA), (Labeler.cmdline "exec.*", procB)]
    (initialMetrics handlerPattern.getMetricConfigs) (by decide)
  exact ⟨r, hok, claim_c1_min_fault_own_labels procA procB (by decide)
    (by decide) (by decide) (by decide) r hok⟩

end ProcessStatsExporter
